import Mathlib

set_option maxHeartbeats 1000000

/-! Verification of the py_rrouge core: map generation (gamemap.py), entities
(entity.py) and actions (action.py), as a shallow embedding.  Grids are total
functions updated pointwise, the shared pseudo-random source is an abstract
stream of naturals, and fallible Python operations (empty randint ranges,
dangling ids) return Option. -/

namespace PyRrouge

/-- Modelled from the spec: the tile-type vocabulary (game/tiles.py is not in
the sources).  WALL is the default value of the zero-initialised tile grid. -/
def TileType.WALL : Nat := 0

/-- Modelled from the spec: the carved FLOOR tile value. -/
def TileType.FLOOR : Nat := 1

/-- Generation constants from gamemap.py. -/
def MAX_ROOMS : Nat := 30

/-- Minimum candidate room side, from gamemap.py. -/
def MIN_SIZE : Int := 6

/-- Maximum candidate room side, from gamemap.py. -/
def MAX_SIZE : Int := 10

/-- Modelled from the spec: the engine-owned shared pseudo-random source, as a
stream of naturals with a cursor. -/
structure Rng where
  stream : Nat → Nat
  pos : Nat

/-- Python random.Random.randint(a, b): a draw from the inclusive range a..b;
none models the ValueError Python raises on an empty range. -/
def randint (a b : Int) (g : Rng) : Option (Int × Rng) :=
  if a ≤ b then
    some (a + ((g.stream g.pos % (b - a + 1).toNat : Nat) : Int), ⟨g.stream, g.pos + 1⟩)
  else none

/-- Python random.Random.random() < 0.5: a fair coin, consuming one draw. -/
def coinFlip (g : Rng) : Bool × Rng :=
  (g.stream g.pos % 2 == 0, ⟨g.stream, g.pos + 1⟩)

/-- Modelled from the spec: room rectangle with corners derived from
(x, y, width, height) (gamemap/rect.py is not in the sources). -/
structure Rect where
  x1 : Int
  y1 : Int
  x2 : Int
  y2 : Int
deriving DecidableEq, Repr

/-- Rect construction: x2 = x + w, y2 = y + h. -/
def Rect.make (x y w h : Int) : Rect := ⟨x, y, x + w, y + h⟩

/-- Modelled from the spec: the integer-rounded midpoint (Python floor
division). -/
def Rect.center (r : Rect) : Int × Int := ((r.x1 + r.x2).fdiv 2, (r.y1 + r.y2).fdiv 2)

/-- Modelled from the spec: membership in the inner open rectangle
x1+1..x2-1, y1+1..y2-1 (the carved floor area inside the 1-tile border). -/
def Rect.innerContains (r : Rect) (x y : Int) : Bool :=
  decide (r.x1 + 1 ≤ x ∧ x ≤ r.x2 - 1 ∧ r.y1 + 1 ≤ y ∧ y ≤ r.y2 - 1)

/-- Modelled from the spec: the inclusive-bounds overlap test. -/
def Rect.intersects (r o : Rect) : Bool :=
  decide (r.x1 ≤ o.x2 ∧ r.x2 ≥ o.x1 ∧ r.y1 ≤ o.y2 ∧ r.y2 ≥ o.y1)

/-- One interpolation step of the rasterizer: i*dabs/n rounded to nearest. -/
def bresStep (i n dabs : Nat) : Nat := (2 * i * dabs + n) / (2 * n)

/-- Modelled from the spec: integer line rasterization (tcod.los.bresenham),
returning every cell from start to end inclusive. -/
def bresenham (a b : Int × Int) : List (Int × Int) :=
  let dx := (b.1 - a.1).natAbs
  let dy := (b.2 - a.2).natAbs
  let n := max dx dy
  (List.range (n + 1)).map (fun i =>
    (a.1 + (b.1 - a.1).sign * ((bresStep i n dx : Nat) : Int),
     a.2 + (b.2 - a.2).sign * ((bresStep i n dy : Nat) : Int)))

/-- The map state from gamemap.py: dimensions, the tile grid, the accepted
room list (the class-level list is passed in explicitly at construction and
threaded through, modelling the Python class attribute), the derived blocked
layer, and the per-tile content index. -/
structure GameMap where
  width : Int
  height : Int
  tiles : Int → Int → Nat
  rooms : List Rect
  blocked : Int → Int → Bool
  tile_content : List (List Nat)

/-- gamemap.py idx: the canonical flattening y*width + x. -/
def GameMap.idx (m : GameMap) (x y : Int) : Int := y * m.width + x

/-- gamemap.py in_bounds. -/
def GameMap.in_bounds (m : GameMap) (x y : Int) : Bool :=
  decide (0 ≤ x ∧ x < m.width ∧ 0 ≤ y ∧ y < m.height)

/-- gamemap.py is_blocked: a direct read of the blocked layer. -/
def GameMap.is_blocked (m : GameMap) (x y : Int) : Bool := m.blocked x y

/-- A single numpy cell assignment tiles[x, y] = v. -/
def GameMap.setTile (m : GameMap) (x y : Int) (v : Nat) : GameMap :=
  { m with tiles := fun a b => if a = x ∧ b = y then v else m.tiles a b }

/-- The slice assignment tiles[new_room.inner] = FLOOR. -/
def GameMap.carveInner (m : GameMap) (r : Rect) : GameMap :=
  { m with tiles := fun a b => if r.innerContains a b then TileType.FLOOR else m.tiles a b }

/-- gamemap.py tunnel_between: corner = (x2, y1) on a true coin (horizontal
then vertical) else (x1, y2), then the two rasterized segments. -/
def GameMap.tunnel_between (coin : Bool) (a b : Int × Int) : List (Int × Int) :=
  let corner := if coin then (b.1, a.2) else (a.1, b.2)
  bresenham a corner ++ bresenham corner b

/-- The loop carving every tunnel cell to FLOOR. -/
def GameMap.carveCells (m : GameMap) (cells : List (Int × Int)) : GameMap :=
  cells.foldl (fun s c => s.setTile c.1 c.2 TileType.FLOOR) m

/-- rooms.append(new_room). -/
def GameMap.addRoom (m : GameMap) (r : Rect) : GameMap :=
  { m with rooms := m.rooms ++ [r] }

/-- One candidate attempt of gamemap.py generate_map: draw w, h, x, y, build
the candidate Rect, skip it if it intersects any accepted room, otherwise
carve its inner area, carve a tunnel from the previous room's center when one
exists (consuming the orientation coin), and append it. -/
def GameMap.attempt (m : GameMap) (g : Rng) : Option (GameMap × Rng) :=
  match randint MIN_SIZE MAX_SIZE g with
  | none => none
  | some (w, g1) =>
    match randint MIN_SIZE MAX_SIZE g1 with
    | none => none
    | some (h, g2) =>
      match randint 0 (m.width - w - 1) g2 with
      | none => none
      | some (x, g3) =>
        match randint 0 (m.height - h - 1) g3 with
        | none => none
        | some (y, g4) =>
          if m.rooms.any (fun o => (Rect.make x y w h).intersects o) then
            some (m, g4)
          else
            match m.rooms.getLast? with
            | none => some ((m.carveInner (Rect.make x y w h)).addRoom (Rect.make x y w h), g4)
            | some prev =>
              some ((((m.carveInner (Rect.make x y w h)).carveCells
                (GameMap.tunnel_between (coinFlip g4).1 prev.center
                  (Rect.make x y w h).center)).addRoom (Rect.make x y w h)),
                (coinFlip g4).2)

/-- The MAX_ROOMS-iteration generation loop. -/
def GameMap.generateAux : Nat → GameMap → Rng → Option (GameMap × Rng)
  | 0, m, g => some (m, g)
  | n + 1, m, g =>
    match m.attempt g with
    | none => none
    | some (m1, g1) => GameMap.generateAux n m1 g1

/-- gamemap.py generate_map: exactly MAX_ROOMS candidate attempts. -/
def GameMap.generate_map (m : GameMap) (g : Rng) : Option (GameMap × Rng) :=
  GameMap.generateAux MAX_ROOMS m g

/-- gamemap.py populate_blocked: a full pass over every in-bounds index
setting blocked to (tile == WALL). -/
def GameMap.populate_blocked (m : GameMap) : GameMap :=
  { m with blocked := fun x y =>
      if 0 ≤ x ∧ x < m.width ∧ 0 ≤ y ∧ y < m.height then m.tiles x y == TileType.WALL
      else m.blocked x y }

/-- The tile_content constructed in GameMap init: width*height empty lists. -/
def initTileContent (width height : Int) : List (List Nat) :=
  List.replicate (width * height).toNat []

/-- The field state established by GameMap init before generation: tiles all
WALL (np.zeros), blocked all false, the shared class-level room list passed
in, and the freshly built content index. -/
def GameMap.mkInit (width height : Int) (rooms0 : List Rect) : GameMap :=
  { width := width, height := height, tiles := fun _ _ => TileType.WALL,
    rooms := rooms0, blocked := fun _ _ => false,
    tile_content := initTileContent width height }

/-- Full construction: init then generate_map, threading the engine rng. -/
def GameMap.make (g : Rng) (width height : Int) (rooms0 : List Rect) :
    Option (GameMap × Rng) :=
  (GameMap.mkInit width height rooms0).generate_map g

/-- Modelled from the spec: two successive constructions sharing the single
class-level room list.  The second construction is seeded with the list the
first one produced (the Python class attribute is never rebound, only
appended to), and the pair returned is (list after the first construction,
shared list after both). -/
def GameMap.makeTwo (g : Rng) (w1 h1 w2 h2 : Int) : Option (List Rect × List Rect) :=
  match GameMap.make g w1 h1 [] with
  | none => none
  | some (st1, g1) =>
    match GameMap.make g1 w2 h2 st1.rooms with
    | none => none
    | some (st2, _) => some (st1.rooms, st2.rooms)

/-- An entity as seen by the content-index queries of action.py: position,
the blocks_movement flag, and whether it is an Actor. -/
structure EntityRef where
  x : Int
  y : Int
  blocks_movement : Bool
  is_actor : Bool
deriving DecidableEq, Repr

/-- Modelled from the spec: the map view used by action.py (game/game_map.py
is not in the sources), holding the width and the per-tile content index
flattened by idx(x, y) = y*width + x. -/
structure MapView where
  width : Int
  content : Int → List EntityRef

/-- Modelled from the spec: get_blocking_entity_at scans the content list of
the destination tile and returns the first entity with blocks_movement. -/
def MapView.get_blocking_entity_at (m : MapView) (x y : Int) : Option EntityRef :=
  (m.content (y * m.width + x)).find? (fun e => e.blocks_movement)

/-- Modelled from the spec: get_actor_at_location scans the content list of
the destination tile and returns the first entity that is an Actor. -/
def MapView.get_actor_at_location (m : MapView) (x y : Int) : Option EntityRef :=
  (m.content (y * m.width + x)).find? (fun e => e.is_actor)

/-- action.py ActionWithDirection: the performing entity and the offsets. -/
structure ActionWithDirection where
  entity : EntityRef
  dx : Int
  dy : Int
deriving DecidableEq, Repr

/-- action.py dest_xy: (entity.x + dx, entity.y + dy). -/
def ActionWithDirection.dest_xy (a : ActionWithDirection) : Int × Int :=
  (a.entity.x + a.dx, a.entity.y + a.dy)

/-- action.py blocking_entity, with the engine's map passed explicitly in
place of the ancestor lookup. -/
def ActionWithDirection.blocking_entity (a : ActionWithDirection) (m : MapView) :
    Option EntityRef :=
  m.get_blocking_entity_at a.dest_xy.1 a.dest_xy.2

/-- action.py target_actor, with the engine's map passed explicitly. -/
def ActionWithDirection.target_actor (a : ActionWithDirection) (m : MapView) :
    Option EntityRef :=
  m.get_actor_at_location a.dest_xy.1 a.dest_xy.2

/-- The Python failure raised by the abstract Action.perform. -/
inductive PyError where
  | notImplementedError
deriving DecidableEq, Repr

/-- The observable state an action could touch: the performing entity and the
map with all its grid layers. -/
structure ActionState where
  entity : EntityRef
  map : GameMap

/-- action.py Action.perform: raise NotImplementedError, whatever entity the
action was constructed with. -/
def Action.perform (entity : EntityRef) : Except PyError Unit :=
  Except.error PyError.notImplementedError

/-- action.py Wait.perform: pass. -/
def Wait.perform (s : ActionState) : Except PyError ActionState :=
  Except.ok s

/-- The capability kinds attached to entities. -/
inductive CapType where
  | baseAI
  | fighter
  | inventory
  | consumable
deriving DecidableEq, Repr

/-- A capability instance: its kind and an opaque payload. -/
structure Cap where
  type : CapType
  data : Int
deriving DecidableEq, Repr

/-- An actor's node state: position, blocks_movement and the attached
capability children (game/node.py is not in the sources; the children set is
modelled from the spec). -/
structure ActorRec where
  x : Int
  y : Int
  blocks_movement : Bool
  children : List Cap
deriving DecidableEq, Repr

/-- Modelled from the spec: attaching a capability (cap.parent = self)
replaces any previously attached capability of the same type. -/
def ActorRec.attachCap (n : ActorRec) (c : Cap) : ActorRec :=
  { n with children := (n.children.filter (fun d => d.type ≠ c.type)) ++ [c] }

/-- Modelled from the spec: try_get searches the node's own attached children
for the capability type and returns the first match. -/
def ActorRec.try_get (n : ActorRec) (t : CapType) : Option Cap :=
  n.children.find? (fun c => c.type == t)

/-- Modelled from the spec: detaching a capability clears its link, removing
it from the children. -/
def ActorRec.detachCap (n : ActorRec) (t : CapType) : ActorRec :=
  { n with children := n.children.filter (fun c => c.type ≠ t) }

/-- entity.py Actor init: blocks_movement true, then attach the AI, the
fighter, and the inventory (a fresh empty one when none is given). -/
def ActorRec.make (x y : Int) (aiData fighterData : Int) (inv : Option Int) : ActorRec :=
  let a : ActorRec := { x := x, y := y, blocks_movement := true, children := [] }
  let a := a.attachCap ⟨CapType.baseAI, aiData⟩
  let a := a.attachCap ⟨CapType.fighter, fighterData⟩
  a.attachCap ⟨CapType.inventory, inv.getD 0⟩

/-- entity.py Actor.is_alive: an AI capability is attached. -/
def ActorRec.is_alive (a : ActorRec) : Bool :=
  (a.try_get CapType.baseAI).isSome

/-- A stored capability in the entity heap: its parent entity id and an
opaque mutable payload (e.g. a fighter's hp). -/
structure CapEntry where
  parent : Option Nat
  hp : Int
deriving DecidableEq, Repr

/-- A stored entity in the heap: the fields of entity.py Entity plus the ids
of its attached capabilities. -/
structure EntityEntry where
  x : Int
  y : Int
  char : Char
  name : String
  blocks_movement : Bool
  parent : Option Nat
  caps : List Nat
deriving DecidableEq, Repr

/-- The object heap for entity.py: entities and capabilities addressed by
stable ids, with a fresh-id counter.  Mutation of a Python object is an
update of its heap entry, and aliasing is sharing of ids. -/
structure World where
  entities : Nat → Option EntityEntry
  capsStore : Nat → Option CapEntry
  nextId : Nat

/-- A well-formed heap: no entry lives at or above the fresh-id counter, and
every capability id held by a live entity is itself below the counter. -/
def World.WF (w : World) : Prop :=
  (∀ i, w.nextId ≤ i → w.entities i = none ∧ w.capsStore i = none) ∧
  (∀ i e, w.entities i = some e → ∀ c ∈ e.caps, c < w.nextId)

/-- Allocate a capability entry at the fresh id. -/
def World.allocCap (w : World) (c : CapEntry) : World × Nat :=
  ({ w with
      capsStore := fun i => if i = w.nextId then some c else w.capsStore i,
      nextId := w.nextId + 1 }, w.nextId)

/-- The recursive half of copy.deepcopy for an entity's capability list:
allocate an independent copy of every capability, reparented to the clone;
none when a capability id dangles. -/
def World.copyCaps : World → List Nat → Nat → Option (World × List Nat)
  | w, [], _ => some (w, [])
  | w, cid :: rest, newParent =>
    match w.capsStore cid with
    | none => none
    | some c =>
      let an := w.allocCap { c with parent := some newParent }
      match World.copyCaps an.1 rest newParent with
      | none => none
      | some (w2, nids) => some (w2, an.2 :: nids)

/-- entity.py spawn: clone = copy.deepcopy(self); clone.x = x; clone.y = y;
clone.parent = gamemap.  The clone and its capabilities get fresh ids, so
they share no heap entry with the template. -/
def World.spawn (w : World) (tid : Nat) (gm : Option Nat) (x y : Int) :
    Option (World × Nat) :=
  match w.entities tid with
  | none => none
  | some e =>
    let cloneId := w.nextId
    let w1 : World := { w with nextId := w.nextId + 1 }
    match w1.copyCaps e.caps cloneId with
    | none => none
    | some (w2, newCaps) =>
      let ents := fun i =>
        if i = cloneId then
          some ({ e with x := x, y := y, parent := gm, caps := newCaps })
        else w2.entities i
      some ({ w2 with entities := ents }, cloneId)

/-- Mutation of an entity's position (clone.x, clone.y assignment). -/
def World.setEntityPos (w : World) (eid : Nat) (x y : Int) : World :=
  { w with entities := fun i =>
      if i = eid then (w.entities i).map (fun e => { e with x := x, y := y })
      else w.entities i }

/-- Mutation of a capability's payload (e.g. fighter.hp assignment). -/
def World.setCapHp (w : World) (cid : Nat) (v : Int) : World :=
  { w with capsStore := fun i =>
      if i = cid then (w.capsStore i).map (fun c => { c with hp := v })
      else w.capsStore i }

/-- Chebyshev adjacency of two cells: they differ by at most one step in each
coordinate. -/
def adjacentCell (c d : Int × Int) : Prop :=
  (c.1 - d.1).natAbs ≤ 1 ∧ (c.2 - d.2).natAbs ≤ 1

/-- A single move of a walk over FLOOR tiles of a map. -/
def floorStep (m : GameMap) (c d : Int × Int) : Prop :=
  adjacentCell c d ∧ m.tiles c.1 c.2 = TileType.FLOOR ∧ m.tiles d.1 d.2 = TileType.FLOOR

/-- Two cells are connected by a path of FLOOR tiles of the map. -/
def FloorConnected (m : GameMap) (a b : Int × Int) : Prop :=
  Relation.ReflTransGen (floorStep m) a b

/-- Every consecutively-accepted room pair of the map has FLOOR-connected
centers. -/
def RoomsChained (m : GameMap) : Prop :=
  m.rooms.Chain' (fun r1 r2 => FloorConnected m r1.center r2.center)

/-- Demo rng stream for the concrete witnesses. -/
def demoRng : Rng := ⟨fun n => n * 7 + 1, 0⟩

/-- A concrete 40x30 construction used by the witnesses. -/
def demoRun : Option (GameMap × Rng) := GameMap.make demoRng 40 30 []

/-- The concrete generated map of the demo construction. -/
def demoSt : GameMap := (demoRun.get (by decide)).1

/-- The rng state left by the demo construction. -/
def demoG : Rng := (demoRun.get (by decide)).2

/-- A concrete two-construction demo sharing the class-level room list. -/
def demoTwo : Option (List Rect × List Rect) := GameMap.makeTwo demoRng 40 30 40 30

/-- The template entity stored at id 0 of the demo heap. -/
def demoTemplate : EntityEntry :=
  { x := 3, y := 4, char := 'o', name := "orc", blocks_movement := true,
    parent := some 9, caps := [1] }

/-- Concrete template heap for the spawn witness: entity 0 with one attached
capability at id 1, counter at 2. -/
def demoWorld : World :=
  { entities := fun i => if i = 0 then some demoTemplate else none,
    capsStore := fun i => if i = 1 then some ({ parent := some 0, hp := 10 }) else none,
    nextId := 2 }

/-- The concrete spawn run used by the spawn witness. -/
def demoSpawn : Option (World × Nat) := demoWorld.spawn 0 (some 7) 50 60

/-- The heap after the demo spawn. -/
def demoW2 : World := (demoSpawn.get (by decide)).1

/-- The clone id produced by the demo spawn. -/
def demoCid : Nat := (demoSpawn.get (by decide)).2

/-- The blocking entity of the C1 witness scenario, standing at (6, 5). -/
def demoBlocker : EntityRef := ⟨6, 5, true, true⟩

/-- The performing actor of the C1 witness scenario, standing at (5, 5). -/
def demoActor : EntityRef := ⟨5, 5, true, true⟩

/-- A 10-wide map view whose only occupied tile is (6, 5). -/
def demoView : MapView :=
  ⟨10, fun i => if i = 5 * 10 + 6 then [demoBlocker] else []⟩

/-- The C1 witness action: the demo actor moving with dx = 1, dy = 0. -/
def demoAwd : ActionWithDirection := ⟨demoActor, 1, 0⟩

/-! Helper lemmas. -/

theorem find?_eq_some_first {α : Type} (p : α → Bool) (l : List α) (e : α) :
    l.find? p = some e ↔
      ∃ l1 l2, l = l1 ++ e :: l2 ∧ p e = true ∧ ∀ x ∈ l1, p x = false := by
  induction l with
  | nil => simp
  | cons a t ih =>
    cases hpa : p a with
    | false =>
      rw [List.find?_cons_of_neg _ (by simp [hpa]), ih]
      constructor
      · rintro ⟨l1, l2, heq, hpe, hall⟩
        refine ⟨a :: l1, l2, by simp [heq], hpe, ?_⟩
        intro x hx
        rcases List.mem_cons.mp hx with rfl | hx1
        · exact hpa
        · exact hall x hx1
      · rintro ⟨l1, l2, heq, hpe, hall⟩
        cases l1 with
        | nil =>
          simp only [List.nil_append, List.cons.injEq] at heq
          rcases heq with ⟨rfl, rfl⟩
          rw [hpa] at hpe
          exact absurd hpe (by simp)
        | cons b l1b =>
          simp only [List.cons_append, List.cons.injEq] at heq
          rcases heq with ⟨rfl, rfl⟩
          exact ⟨l1b, l2, rfl, hpe, fun x hx => hall x (List.mem_cons_of_mem _ hx)⟩
    | true =>
      rw [List.find?_cons_of_pos _ hpa]
      constructor
      · intro h
        injection h with h
        exact ⟨[], t, by simp [h], by rw [← h]; exact hpa, by simp⟩
      · rintro ⟨l1, l2, heq, hpe, hall⟩
        cases l1 with
        | nil =>
          simp only [List.nil_append, List.cons.injEq] at heq
          rw [heq.1]
        | cons b l1b =>
          simp only [List.cons_append, List.cons.injEq] at heq
          have hb : p b = false := hall b (List.mem_cons_self b l1b)
          rw [← heq.1, hpa] at hb
          exact absurd hb (by simp)

/-- C1: for every ActionWithDirection, dest_xy equals (x+dx, y+dy);
blocking_entity is exactly the first entity with blocks_movement in the
content index slot of dest_xy (none iff no entity there blocks), and
target_actor is exactly the first Actor there (none iff no actor there). -/
theorem actionWithDirection_spec (a : ActionWithDirection) (m : MapView) :
    a.dest_xy = (a.entity.x + a.dx, a.entity.y + a.dy) ∧
    (∀ e, a.blocking_entity m = some e ↔
      ∃ l1 l2, m.content (a.dest_xy.2 * m.width + a.dest_xy.1) = l1 ++ e :: l2 ∧
        e.blocks_movement = true ∧ ∀ x ∈ l1, x.blocks_movement = false) ∧
    (a.blocking_entity m = none ↔
      ∀ e ∈ m.content (a.dest_xy.2 * m.width + a.dest_xy.1), e.blocks_movement = false) ∧
    (∀ e, a.target_actor m = some e ↔
      ∃ l1 l2, m.content (a.dest_xy.2 * m.width + a.dest_xy.1) = l1 ++ e :: l2 ∧
        e.is_actor = true ∧ ∀ x ∈ l1, x.is_actor = false) ∧
    (a.target_actor m = none ↔
      ∀ e ∈ m.content (a.dest_xy.2 * m.width + a.dest_xy.1), e.is_actor = false) := by
  refine ⟨rfl, ?_, ?_, ?_, ?_⟩
  · intro e
    exact find?_eq_some_first (fun x => x.blocks_movement) _ e
  · simp only [ActionWithDirection.blocking_entity, MapView.get_blocking_entity_at,
      List.find?_eq_none]
    simp
  · intro e
    exact find?_eq_some_first (fun x => x.is_actor) _ e
  · simp only [ActionWithDirection.target_actor, MapView.get_actor_at_location,
      List.find?_eq_none]
    simp

/-- C1 witness: the spec scenario, an actor at (5, 5) moving with dx = 1,
dy = 0, a blocking entity occupying (6, 5). -/
theorem actionWithDirection_spec_witness :
    demoAwd.dest_xy = (6, 5) ∧ demoAwd.blocking_entity demoView = some demoBlocker :=
  ⟨by decide,
   ((actionWithDirection_spec demoAwd demoView).2.1 demoBlocker).mpr
     ⟨[], [], by decide, by decide, by decide⟩⟩

/-- C6: after populate_blocked, every in-bounds cell's blocked value equals
(tile == WALL); and a tile assignment leaves the blocked layer untouched, so
blocked is not incrementally maintained. -/
theorem populate_blocked_spec (m : GameMap) (x y : Int) (h : m.in_bounds x y = true) :
    m.populate_blocked.blocked x y = (m.tiles x y == TileType.WALL) ∧
    ∀ a b v p q, (m.setTile a b v).blocked p q = m.blocked p q := by
  refine ⟨?_, fun a b v p q => rfl⟩
  have h' : 0 ≤ x ∧ x < m.width ∧ 0 ≤ y ∧ y < m.height := by
    simpa [GameMap.in_bounds] using h
  simp [GameMap.populate_blocked, h'.1, h'.2.1, h'.2.2.1, h'.2.2.2]

/-- C6 witness: a concrete in-bounds cell of a concrete map. -/
theorem populate_blocked_spec_witness :
    (GameMap.mkInit 4 3 []).populate_blocked.blocked 1 2 =
      ((GameMap.mkInit 4 3 []).tiles 1 2 == TileType.WALL) :=
  (populate_blocked_spec (GameMap.mkInit 4 3 []) 1 2 (by decide)).1

/-- C8: perform on a bare Action yields the NotImplemented failure for every
entity it was constructed with, while Wait.perform succeeds and returns the
state with the entity, the map and every grid layer unchanged. -/
theorem action_perform_spec :
    (∀ e, Action.perform e = Except.error PyError.notImplementedError) ∧
    (∀ s, Wait.perform s = Except.ok s ∧
      ∃ s', Wait.perform s = Except.ok s' ∧ s'.entity = s.entity ∧
        s'.map.tiles = s.map.tiles ∧ s'.map.blocked = s.map.blocked ∧
        s'.map.rooms = s.map.rooms ∧ s'.map.tile_content = s.map.tile_content) :=
  ⟨fun _ => rfl, fun s => ⟨rfl, s, rfl, rfl, rfl, rfl, rfl, rfl⟩⟩

/-- C9: is_alive holds exactly when an AI capability is attached: true right
after Actor construction, false once the AI capability is detached, and
equivalent to AI membership in the children, with no separate flag. -/
theorem actor_is_alive_spec :
    (∀ x y ai f inv, (ActorRec.make x y ai f inv).is_alive = true) ∧
    (∀ a : ActorRec, (a.detachCap CapType.baseAI).is_alive = false) ∧
    (∀ a : ActorRec, a.is_alive = true ↔ ∃ c ∈ a.children, c.type = CapType.baseAI) := by
  refine ⟨fun x y ai f inv => rfl, fun a => ?_, fun a => ?_⟩
  · have hnone : (a.children.filter fun c => c.type ≠ CapType.baseAI).find?
        (fun c => c.type == CapType.baseAI) = none := by
      rw [List.find?_eq_none]
      intro x hx
      have hmem : x.type ≠ CapType.baseAI := by simpa using List.of_mem_filter hx
      simp [beq_iff_eq, hmem]
    simp [ActorRec.is_alive, ActorRec.try_get, ActorRec.detachCap, hnone]
  · simp [ActorRec.is_alive, ActorRec.try_get, List.find?_isSome, beq_iff_eq]

/-- C9 witness: a concrete actor is alive after construction and dead after
its AI capability is detached. -/
theorem actor_is_alive_spec_witness :
    (ActorRec.make 0 0 1 2 none).is_alive = true ∧
    ((ActorRec.make 0 0 1 2 none).detachCap CapType.baseAI).is_alive = false :=
  ⟨actor_is_alive_spec.1 0 0 1 2 none,
   actor_is_alive_spec.2.1 (ActorRec.make 0 0 1 2 none)⟩

/-! Generator helper lemmas. -/

theorem randint_eq_some (a b : Int) (g : Rng) (h : a ≤ b) :
    randint a b g =
      some (a + ((g.stream g.pos % (b - a + 1).toNat : Nat) : Int),
        ⟨g.stream, g.pos + 1⟩) := by
  simp [randint, h]

theorem randint_bounds {a b v : Int} {g g' : Rng}
    (h : randint a b g = some (v, g')) : a ≤ v ∧ v ≤ b := by
  by_cases hab : a ≤ b
  · rw [randint_eq_some a b g hab] at h
    have hv : a + ((g.stream g.pos % (b - a + 1).toNat : Nat) : Int) = v := by
      injection h with h1
      exact congrArg Prod.fst h1
    have hmodlt : g.stream g.pos % (b - a + 1).toNat < (b - a + 1).toNat :=
      Nat.mod_lt _ (by omega)
    omega
  · simp [randint, hab] at h

theorem carveCells_fields (cells : List (Int × Int)) (m : GameMap) :
    (m.carveCells cells).width = m.width ∧ (m.carveCells cells).height = m.height ∧
    (m.carveCells cells).rooms = m.rooms ∧ (m.carveCells cells).blocked = m.blocked ∧
    (m.carveCells cells).tile_content = m.tile_content := by
  induction cells generalizing m with
  | nil => exact ⟨rfl, rfl, rfl, rfl, rfl⟩
  | cons c cs ih => exact ih (m.setTile c.1 c.2 TileType.FLOOR)

theorem carveCells_tiles_mono (cells : List (Int × Int)) (m : GameMap) (a b : Int)
    (hf : m.tiles a b = TileType.FLOOR) :
    (m.carveCells cells).tiles a b = TileType.FLOOR := by
  induction cells generalizing m with
  | nil => exact hf
  | cons c cs ih =>
    refine ih (m.setTile c.1 c.2 TileType.FLOOR) ?_
    simp only [GameMap.setTile]
    split
    · rfl
    · exact hf

theorem carveCells_tiles_of_mem :
    ∀ (cells : List (Int × Int)) (m : GameMap) (c : Int × Int), c ∈ cells →
      (m.carveCells cells).tiles c.1 c.2 = TileType.FLOOR := by
  intro cells
  induction cells with
  | nil => intro m c hc; cases hc
  | cons d cs ih =>
    intro m c hc
    rcases List.mem_cons.mp hc with rfl | hmem
    · exact carveCells_tiles_mono cs _ c.1 c.2 (by simp [GameMap.setTile])
    · exact ih _ c hmem

theorem carveInner_tiles_mono (m : GameMap) (r : Rect) (a b : Int)
    (hf : m.tiles a b = TileType.FLOOR) :
    (m.carveInner r).tiles a b = TileType.FLOOR := by
  simp only [GameMap.carveInner]
  split
  · rfl
  · exact hf

theorem attempt_cases {m : GameMap} {g : Rng} {m' : GameMap} {g' : Rng}
    (h : m.attempt g = some (m', g')) :
    ∃ r : Rect,
      (m.rooms.any (fun o => r.intersects o) = true ∧ m' = m) ∨
      (m.rooms.any (fun o => r.intersects o) = false ∧
        ((m.rooms = [] ∧ m' = (m.carveInner r).addRoom r) ∨
         (∃ prev coin, m.rooms.getLast? = some prev ∧
           m' = ((m.carveInner r).carveCells
             (GameMap.tunnel_between coin prev.center r.center)).addRoom r))) := by
  unfold GameMap.attempt at h
  repeat' split at h
  all_goals try exact Option.noConfusion h
  · rw [Option.some.injEq, Prod.mk.injEq] at h
    obtain ⟨h5, h6⟩ := h
    subst h5
    exact ⟨_, Or.inl ⟨by assumption, rfl⟩⟩
  · rw [Option.some.injEq, Prod.mk.injEq] at h
    obtain ⟨h5, h6⟩ := h
    subst h5
    refine ⟨_, Or.inr ⟨by rw [← Bool.not_eq_true]; assumption,
      Or.inl ⟨List.getLast?_eq_none_iff.mp (by assumption), rfl⟩⟩⟩
  · rw [Option.some.injEq, Prod.mk.injEq] at h
    obtain ⟨h5, h6⟩ := h
    subst h5
    exact ⟨_, Or.inr ⟨by rw [← Bool.not_eq_true]; assumption,
      Or.inr ⟨_, _, by assumption, rfl⟩⟩⟩

@[simp] theorem addRoom_rooms (m : GameMap) (r : Rect) :
    (m.addRoom r).rooms = m.rooms ++ [r] := rfl

@[simp] theorem addRoom_width (m : GameMap) (r : Rect) : (m.addRoom r).width = m.width := rfl

@[simp] theorem addRoom_height (m : GameMap) (r : Rect) :
    (m.addRoom r).height = m.height := rfl

@[simp] theorem addRoom_tiles (m : GameMap) (r : Rect) : (m.addRoom r).tiles = m.tiles := rfl

@[simp] theorem addRoom_tile_content (m : GameMap) (r : Rect) :
    (m.addRoom r).tile_content = m.tile_content := rfl

@[simp] theorem carveInner_width (m : GameMap) (r : Rect) :
    (m.carveInner r).width = m.width := rfl

@[simp] theorem carveInner_height (m : GameMap) (r : Rect) :
    (m.carveInner r).height = m.height := rfl

@[simp] theorem carveInner_rooms (m : GameMap) (r : Rect) :
    (m.carveInner r).rooms = m.rooms := rfl

@[simp] theorem carveInner_tile_content (m : GameMap) (r : Rect) :
    (m.carveInner r).tile_content = m.tile_content := rfl

@[simp] theorem carveCells_width (cells : List (Int × Int)) (m : GameMap) :
    (m.carveCells cells).width = m.width := (carveCells_fields cells m).1

@[simp] theorem carveCells_height (cells : List (Int × Int)) (m : GameMap) :
    (m.carveCells cells).height = m.height := (carveCells_fields cells m).2.1

@[simp] theorem carveCells_rooms (cells : List (Int × Int)) (m : GameMap) :
    (m.carveCells cells).rooms = m.rooms := (carveCells_fields cells m).2.2.1

@[simp] theorem carveCells_tile_content (cells : List (Int × Int)) (m : GameMap) :
    (m.carveCells cells).tile_content = m.tile_content := (carveCells_fields cells m).2.2.2.2

theorem attempt_fields {m : GameMap} {g : Rng} {m' : GameMap} {g' : Rng}
    (h : m.attempt g = some (m', g')) :
    m'.width = m.width ∧ m'.height = m.height ∧ m'.tile_content = m.tile_content ∧
    ∃ t, m'.rooms = m.rooms ++ t ∧ t.length ≤ 1 := by
  rcases attempt_cases h with ⟨r, ⟨hint, rfl⟩ | ⟨hint, hcase⟩⟩
  · exact ⟨rfl, rfl, rfl, ⟨[], by simp, by simp⟩⟩
  · rcases hcase with ⟨hnil, rfl⟩ | ⟨prev, coin, hlast, rfl⟩
    · exact ⟨rfl, rfl, rfl, ⟨[r], by simp, by simp⟩⟩
    · exact ⟨by simp, by simp, by simp, ⟨[r], by simp, by simp⟩⟩

theorem attempt_empty {m : GameMap} {g : Rng} {m' : GameMap} {g' : Rng}
    (h : m.attempt g = some (m', g')) (hr : m.rooms = []) :
    ∃ r, m'.rooms = [r] := by
  rcases attempt_cases h with ⟨r, ⟨hint, rfl⟩ | ⟨hint, hcase⟩⟩
  · rw [hr] at hint
    exact absurd hint (by simp)
  · rcases hcase with ⟨hnil, rfl⟩ | ⟨prev, coin, hlast, rfl⟩
    · exact ⟨r, by simp [hr]⟩
    · rw [hr] at hlast
      exact absurd hlast (by simp)

theorem intersects_symm (r o : Rect) : r.intersects o = o.intersects r := by
  simp only [Rect.intersects]
  rw [decide_eq_decide]
  constructor <;> rintro ⟨h1, h2, h3, h4⟩ <;>
    exact ⟨by omega, by omega, by omega, by omega⟩

theorem attempt_pairwise {m : GameMap} {g : Rng} {m' : GameMap} {g' : Rng}
    (h : m.attempt g = some (m', g'))
    (hp : m.rooms.Pairwise (fun a b => a.intersects b = false)) :
    m'.rooms.Pairwise (fun a b => a.intersects b = false) := by
  rcases attempt_cases h with ⟨r, ⟨hint, rfl⟩ | ⟨hint, hcase⟩⟩
  · exact hp
  · have hall : ∀ o ∈ m.rooms, r.intersects o = false := by
      intro o ho
      simpa using List.any_eq_false.mp hint o ho
    have hstep : ∀ a ∈ m.rooms, ∀ b ∈ [r], a.intersects b = false := by
      intro a ha b hb
      rcases List.mem_singleton.mp hb with rfl
      rw [intersects_symm]
      exact hall a ha
    rcases hcase with ⟨hnil, rfl⟩ | ⟨prev, coin, hlast, rfl⟩
    · simp only [addRoom_rooms, carveInner_rooms]
      exact List.pairwise_append.mpr ⟨hp, by simp, hstep⟩
    · simp only [addRoom_rooms, carveCells_rooms, carveInner_rooms]
      exact List.pairwise_append.mpr ⟨hp, by simp, hstep⟩

theorem attempt_success (m : GameMap) (g : Rng)
    (hw : MAX_SIZE + 1 ≤ m.width) (hh : MAX_SIZE + 1 ≤ m.height) :
    ∃ m' g', m.attempt g = some (m', g') := by
  unfold GameMap.attempt
  rcases h1 : randint MIN_SIZE MAX_SIZE g with _ | ⟨w, g1⟩
  · rw [randint_eq_some MIN_SIZE MAX_SIZE g (by decide)] at h1
    exact Option.noConfusion h1
  simp only [h1]
  obtain ⟨hw1, hw2⟩ := randint_bounds h1
  rcases h2 : randint MIN_SIZE MAX_SIZE g1 with _ | ⟨hgt, g2⟩
  · rw [randint_eq_some MIN_SIZE MAX_SIZE g1 (by decide)] at h2
    exact Option.noConfusion h2
  simp only [h2]
  obtain ⟨hh1, hh2⟩ := randint_bounds h2
  rcases h3 : randint 0 (m.width - w - 1) g2 with _ | ⟨x, g3⟩
  · rw [randint_eq_some 0 (m.width - w - 1) g2 (by omega)] at h3
    exact Option.noConfusion h3
  simp only [h3]
  rcases h4 : randint 0 (m.height - hgt - 1) g3 with _ | ⟨y, g4⟩
  · rw [randint_eq_some 0 (m.height - hgt - 1) g3 (by omega)] at h4
    exact Option.noConfusion h4
  simp only [h4]
  rcases hany : m.rooms.any (fun o => (Rect.make x y w hgt).intersects o) with _ | _
  · rcases hl : m.rooms.getLast? with _ | prev
    · simp [hany, hl]
    · simp [hany, hl]
  · simp [hany]

theorem generateAux_fields :
    ∀ (n : Nat) (m : GameMap) (g : Rng) (st : GameMap) (g' : Rng),
      GameMap.generateAux n m g = some (st, g') →
      st.width = m.width ∧ st.height = m.height ∧ st.tile_content = m.tile_content ∧
      ∃ t, st.rooms = m.rooms ++ t ∧ t.length ≤ n := by
  intro n
  induction n with
  | zero =>
    intro m g st g' h
    simp only [GameMap.generateAux, Option.some.injEq, Prod.mk.injEq] at h
    obtain ⟨rfl, rfl⟩ := h
    exact ⟨rfl, rfl, rfl, ⟨[], by simp, by simp⟩⟩
  | succ k ih =>
    intro m g st g' h
    simp only [GameMap.generateAux] at h
    rcases ha : m.attempt g with _ | ⟨m1, g1⟩ <;> rw [ha] at h
    · exact Option.noConfusion h
    · obtain ⟨hw1, hh1, ht1, t1, hr1, hl1⟩ := attempt_fields ha
      obtain ⟨hw2, hh2, ht2, t2, hr2, hl2⟩ := ih m1 g1 st g' h
      refine ⟨hw2.trans hw1, hh2.trans hh1, ht2.trans ht1, ⟨t1 ++ t2, ?_, ?_⟩⟩
      · rw [hr2, hr1, List.append_assoc]
      · rw [List.length_append]
        omega

theorem generateAux_success :
    ∀ (n : Nat) (m : GameMap) (g : Rng),
      MAX_SIZE + 1 ≤ m.width → MAX_SIZE + 1 ≤ m.height →
      ∃ st g', GameMap.generateAux n m g = some (st, g') := by
  intro n
  induction n with
  | zero => intro m g _ _; exact ⟨m, g, rfl⟩
  | succ k ih =>
    intro m g hw hh
    obtain ⟨m1, g1, ha⟩ := attempt_success m g hw hh
    obtain ⟨hw1, hh1, _, _⟩ := attempt_fields ha
    obtain ⟨st, g', haux⟩ := ih m1 g1 (by omega) (by omega)
    refine ⟨st, g', ?_⟩
    simp only [GameMap.generateAux]
    rw [ha]
    exact haux

theorem generateAux_pairwise :
    ∀ (n : Nat) (m : GameMap) (g : Rng) (st : GameMap) (g' : Rng),
      GameMap.generateAux n m g = some (st, g') →
      m.rooms.Pairwise (fun a b => a.intersects b = false) →
      st.rooms.Pairwise (fun a b => a.intersects b = false) := by
  intro n
  induction n with
  | zero =>
    intro m g st g' h hp
    simp only [GameMap.generateAux, Option.some.injEq, Prod.mk.injEq] at h
    obtain ⟨rfl, rfl⟩ := h
    exact hp
  | succ k ih =>
    intro m g st g' h hp
    simp only [GameMap.generateAux] at h
    rcases ha : m.attempt g with _ | ⟨m1, g1⟩ <;> rw [ha] at h
    · exact Option.noConfusion h
    · exact ih m1 g1 st g' h (attempt_pairwise ha hp)

/-! Line rasterization and floor connectivity. -/

theorem natAbs_sign_le_one (d : Int) : d.sign.natAbs ≤ 1 := by
  rcases Int.lt_trichotomy d 0 with h | h | h
  · rw [Int.sign_eq_neg_one_of_neg h]
    decide
  · rw [h, Int.sign_zero]
    decide
  · rw [Int.sign_eq_one_of_pos h]
    decide

theorem bresStep_zero (n d : Nat) : bresStep 0 n d = 0 := by
  unfold bresStep
  have h1 : 2 * 0 * d + n = n := by ring
  rw [h1]
  rcases Nat.eq_zero_or_pos n with rfl | hn
  · rfl
  · exact Nat.div_eq_of_lt (by omega)

theorem bresStep_maxSelf (i n : Nat) (hn : 0 < n) : bresStep i n n = i := by
  unfold bresStep
  have h1 : 2 * i * n + n = n * (2 * i + 1) := by ring
  have h2 : 2 * n = n * 2 := by ring
  rw [h1, h2, Nat.mul_div_mul_left _ _ hn]
  omega

theorem floorConnected_seg (m : GameMap) (f : Nat → Int × Int) :
    ∀ n, (∀ i, i ≤ n → m.tiles (f i).1 (f i).2 = TileType.FLOOR) →
      (∀ i, i < n → adjacentCell (f i) (f (i + 1))) →
      FloorConnected m (f 0) (f n) := by
  intro n
  induction n with
  | zero => intro _ _; exact Relation.ReflTransGen.refl
  | succ k ih =>
    intro hf ha
    exact Relation.ReflTransGen.tail
      (ih (fun i hi => hf i (Nat.le_succ_of_le hi)) (fun i hi => ha i (Nat.lt_succ_of_lt hi)))
      ⟨ha k (Nat.lt_succ_self k), hf k (Nat.le_succ k), hf (k + 1) (Nat.le_refl _)⟩

theorem floorConnected_bresenham (m : GameMap) (a b : Int × Int)
    (hax : a.1 = b.1 ∨ a.2 = b.2)
    (hfl : ∀ c ∈ bresenham a b, m.tiles c.1 c.2 = TileType.FLOOR) :
    FloorConnected m a b := by
  rcases hax with hx | hy
  · -- vertical segment: a.1 = b.1
    have hdx : (b.1 - a.1).natAbs = 0 := by
      rw [Int.natAbs_eq_zero]
      omega
    rcases Nat.eq_zero_or_pos (b.2 - a.2).natAbs with hn0 | hn
    · have hab : a = b := by
        refine Prod.ext hx ?_
        have := Int.natAbs_eq_zero.mp hn0
        omega
      rw [hab]
      exact Relation.ReflTransGen.refl
    · have hsx : (b.1 - a.1).sign = 0 := by
        have : b.1 - a.1 = 0 := by omega
        rw [this, Int.sign_zero]
      have hmem : ∀ i, i ≤ (b.2 - a.2).natAbs →
          (a.1, a.2 + (b.2 - a.2).sign * (i : Int)) ∈ bresenham a b := by
        intro i hi
        simp only [bresenham]
        refine List.mem_map.mpr ⟨i, List.mem_range.mpr ?_, ?_⟩
        · rw [hdx]
          omega
        · rw [hdx, hsx]
          have hmax : max 0 (b.2 - a.2).natAbs = (b.2 - a.2).natAbs := by omega
          rw [hmax, bresStep_maxSelf i _ hn]
          simp
      have h0 : (a.1, a.2 + (b.2 - a.2).sign * ((0 : Nat) : Int)) = a := by
        simp
      have hlast : (a.1, a.2 + (b.2 - a.2).sign * (((b.2 - a.2).natAbs : Nat) : Int)) = b := by
        rw [Int.sign_mul_natAbs]
        refine Prod.ext ?_ ?_
        · exact hx
        · simp
      have hconn := floorConnected_seg m
        (fun i => (a.1, a.2 + (b.2 - a.2).sign * (i : Int))) (b.2 - a.2).natAbs
        (fun i hi => hfl _ (hmem i hi))
        (fun i hi => by
          constructor
          · simp
          · have hdiff : a.2 + (b.2 - a.2).sign * (i : Int) -
                (a.2 + (b.2 - a.2).sign * ((i + 1 : Nat) : Int)) = -(b.2 - a.2).sign := by
              push_cast
              ring
            rw [hdiff, Int.natAbs_neg]
            exact natAbs_sign_le_one _)
      simp only at hconn
      rwa [h0, hlast] at hconn
  · -- horizontal segment: a.2 = b.2
    have hdy : (b.2 - a.2).natAbs = 0 := by
      rw [Int.natAbs_eq_zero]
      omega
    rcases Nat.eq_zero_or_pos (b.1 - a.1).natAbs with hn0 | hn
    · have hab : a = b := by
        refine Prod.ext ?_ hy
        have := Int.natAbs_eq_zero.mp hn0
        omega
      rw [hab]
      exact Relation.ReflTransGen.refl
    · have hsy : (b.2 - a.2).sign = 0 := by
        have : b.2 - a.2 = 0 := by omega
        rw [this, Int.sign_zero]
      have hmem : ∀ i, i ≤ (b.1 - a.1).natAbs →
          (a.1 + (b.1 - a.1).sign * (i : Int), a.2) ∈ bresenham a b := by
        intro i hi
        simp only [bresenham]
        refine List.mem_map.mpr ⟨i, List.mem_range.mpr ?_, ?_⟩
        · rw [hdy]
          omega
        · rw [hdy, hsy]
          have hmax : max (b.1 - a.1).natAbs 0 = (b.1 - a.1).natAbs := by omega
          rw [hmax, bresStep_maxSelf i _ hn]
          simp
      have h0 : (a.1 + (b.1 - a.1).sign * ((0 : Nat) : Int), a.2) = a := by
        simp
      have hlast : (a.1 + (b.1 - a.1).sign * (((b.1 - a.1).natAbs : Nat) : Int), a.2) = b := by
        rw [Int.sign_mul_natAbs]
        refine Prod.ext ?_ ?_
        · simp
        · exact hy
      have hconn := floorConnected_seg m
        (fun i => (a.1 + (b.1 - a.1).sign * (i : Int), a.2)) (b.1 - a.1).natAbs
        (fun i hi => hfl _ (hmem i hi))
        (fun i hi => by
          constructor
          · have hdiff : a.1 + (b.1 - a.1).sign * (i : Int) -
                (a.1 + (b.1 - a.1).sign * ((i + 1 : Nat) : Int)) = -(b.1 - a.1).sign := by
              push_cast
              ring
            rw [hdiff, Int.natAbs_neg]
            exact natAbs_sign_le_one _
          · simp)
      simp only at hconn
      rwa [h0, hlast] at hconn

theorem floorConnected_mono {m m' : GameMap}
    (hm : ∀ a b, m.tiles a b = TileType.FLOOR → m'.tiles a b = TileType.FLOOR)
    {x y : Int × Int} (h : FloorConnected m x y) : FloorConnected m' x y :=
  Relation.ReflTransGen.mono (fun c d hcd => ⟨hcd.1, hm _ _ hcd.2.1, hm _ _ hcd.2.2⟩) h

theorem tunnel_connected (m : GameMap) (coin : Bool) (p q : Int × Int)
    (hfl : ∀ c ∈ GameMap.tunnel_between coin p q, m.tiles c.1 c.2 = TileType.FLOOR) :
    FloorConnected m p q := by
  unfold GameMap.tunnel_between at hfl
  cases coin with
  | true =>
    exact Relation.ReflTransGen.trans
      (floorConnected_bresenham m p (q.1, p.2) (Or.inr rfl)
        (fun c hc => hfl c (List.mem_append_left _ hc)))
      (floorConnected_bresenham m (q.1, p.2) q (Or.inl rfl)
        (fun c hc => hfl c (List.mem_append_right _ hc)))
  | false =>
    exact Relation.ReflTransGen.trans
      (floorConnected_bresenham m p (p.1, q.2) (Or.inl rfl)
        (fun c hc => hfl c (List.mem_append_left _ hc)))
      (floorConnected_bresenham m (p.1, q.2) q (Or.inr rfl)
        (fun c hc => hfl c (List.mem_append_right _ hc)))

theorem attempt_chained {m : GameMap} {g : Rng} {m' : GameMap} {g' : Rng}
    (h : m.attempt g = some (m', g')) (hc : RoomsChained m) : RoomsChained m' := by
  rcases attempt_cases h with ⟨r, ⟨hint, rfl⟩ | ⟨hint, hcase⟩⟩
  · exact hc
  rcases hcase with ⟨hnil, rfl⟩ | ⟨prev, coin, hlast, rfl⟩
  · unfold RoomsChained
    rw [addRoom_rooms, carveInner_rooms, hnil]
    simp
  · unfold RoomsChained at hc ⊢
    rw [addRoom_rooms, carveCells_rooms, carveInner_rooms]
    have hmono : ∀ a b, m.tiles a b = TileType.FLOOR →
        (((m.carveInner r).carveCells
          (GameMap.tunnel_between coin prev.center r.center)).addRoom r).tiles a b =
          TileType.FLOOR :=
      fun a b hf => carveCells_tiles_mono _ _ _ _ (carveInner_tiles_mono m r a b hf)
    rw [List.chain'_append]
    refine ⟨List.Chain'.imp (fun r1 r2 h12 => floorConnected_mono hmono h12) hc, by simp, ?_⟩
    intro p hp qq hq
    have hpp : prev = p := by
      rw [hlast] at hp
      simpa using hp
    have hqq : r = qq := by simpa using hq
    subst hpp
    subst hqq
    exact tunnel_connected _ coin prev.center r.center
      (fun c hcmem => carveCells_tiles_of_mem _ _ c hcmem)

theorem generateAux_chained :
    ∀ (n : Nat) (m : GameMap) (g : Rng) (st : GameMap) (g' : Rng),
      GameMap.generateAux n m g = some (st, g') → RoomsChained m → RoomsChained st := by
  intro n
  induction n with
  | zero =>
    intro m g st g' h hp
    simp only [GameMap.generateAux, Option.some.injEq, Prod.mk.injEq] at h
    obtain ⟨rfl, rfl⟩ := h
    exact hp
  | succ k ih =>
    intro m g st g' h hp
    simp only [GameMap.generateAux] at h
    rcases ha : m.attempt g with _ | ⟨m1, g1⟩ <;> rw [ha] at h
    · exact Option.noConfusion h
    · exact ih m1 g1 st g' h (attempt_chained ha hp)

theorem make_nil_rooms_nonempty {g : Rng} {w h : Int} {st : GameMap} {g' : Rng}
    (hgen : GameMap.make g w h [] = some (st, g')) : st.rooms ≠ [] := by
  have hgen2 : GameMap.generateAux (29 + 1) (GameMap.mkInit w h []) g = some (st, g') := hgen
  simp only [GameMap.generateAux] at hgen2
  rcases ha : (GameMap.mkInit w h []).attempt g with _ | ⟨m1, g1⟩ <;> rw [ha] at hgen2
  · exact Option.noConfusion hgen2
  · obtain ⟨r1, hr1⟩ := attempt_empty ha rfl
    obtain ⟨_, _, _, t, hrt, _⟩ := generateAux_fields 29 m1 g1 st g' hgen2
    rw [hrt, hr1]
    simp

/-! The generator claims. -/

/-- C2: every generated map's accepted room list is pairwise non-intersecting
under the inclusive-bounds test (given the shared class-level list it starts
from already was), and an attempt either changes nothing or appends a
candidate that intersects no accepted room: intersecting candidates are
rejected before any carving or appending. -/
theorem generated_rooms_disjoint (g : Rng) (w h : Int) (rooms0 : List Rect)
    (h0 : rooms0.Pairwise (fun a b => a.intersects b = false))
    (st : GameMap) (g' : Rng) (hgen : GameMap.make g w h rooms0 = some (st, g')) :
    st.rooms.Pairwise (fun a b => a.intersects b = false) ∧
    ∀ (m m' : GameMap) (gg gg' : Rng), m.attempt gg = some (m', gg') →
      m' = m ∨ ∃ r, m.rooms.any (fun o => r.intersects o) = false ∧
        m'.rooms = m.rooms ++ [r] := by
  constructor
  · exact generateAux_pairwise MAX_ROOMS (GameMap.mkInit w h rooms0) g st g' hgen h0
  · intro m m' gg gg' ha
    rcases attempt_cases ha with ⟨r, ⟨hint, rfl⟩ | ⟨hint, hcase⟩⟩
    · exact Or.inl rfl
    · refine Or.inr ⟨r, hint, ?_⟩
      rcases hcase with ⟨hnil, rfl⟩ | ⟨prev, coin, hlast, rfl⟩
      · simp
      · simp

/-- C2 witness: a concrete 40×30 construction from the empty class list. -/
theorem generated_rooms_disjoint_witness :
    demoSt.rooms.Pairwise (fun a b => a.intersects b = false) :=
  (generated_rooms_disjoint demoRng 40 30 [] List.Pairwise.nil demoSt demoG
    ((Option.some_get (by decide : demoRun.isSome = true)).symm)).1

/-- C3: in every generated map, the centers of every consecutively-accepted
room pair are connected by a path of FLOOR tiles (the carved L-shaped
corridor of two axis-aligned rasterized segments through the coin-chosen
bend corner). -/
theorem generated_rooms_connected (g : Rng) (w h : Int) (st : GameMap) (g' : Rng)
    (hgen : GameMap.make g w h [] = some (st, g')) :
    st.rooms.Chain' (fun r1 r2 => FloorConnected st r1.center r2.center) :=
  generateAux_chained MAX_ROOMS (GameMap.mkInit w h []) g st g' hgen
    (by simp [RoomsChained, GameMap.mkInit])

/-- C3 witness: the demo construction has at least two rooms and its
consecutive room centers are floor-connected. -/
theorem generated_rooms_connected_witness :
    demoSt.rooms.Chain' (fun r1 r2 => FloorConnected demoSt r1.center r2.center) ∧
    2 ≤ demoSt.rooms.length :=
  ⟨generated_rooms_connected demoRng 40 30 demoSt demoG
    ((Option.some_get (by decide : demoRun.isSome = true)).symm), by decide⟩

/-- C4 counterexample: a 7×7 grid hosts a MIN_SIZE×MIN_SIZE room, yet
construction fails outright (Python randint raises on an empty range) when
the rng draws a 10-wide candidate, so generation does not always run the 30
attempts to completion under the claim's hypothesis. -/
theorem generate_map_small_grid_fails :
    MIN_SIZE + 1 ≤ 7 ∧ GameMap.make ⟨fun _ => 4, 0⟩ 7 7 [] = none :=
  ⟨by decide, rfl⟩

/-- C4 (amended): for width and height at least MAX_SIZE + 1 = 11, the
 generation loop of exactly MAX_ROOMS = 30 candidate attempts always
terminates successfully starting from the empty room list, and the resulting
room count is between 1 and 30; colliding candidates are skipped silently. -/
theorem generate_map_bounded (g : Rng) (w h : Int)
    (hw : MAX_SIZE + 1 ≤ w) (hh : MAX_SIZE + 1 ≤ h) :
    ∃ st g', GameMap.make g w h [] = some (st, g') ∧
      1 ≤ st.rooms.length ∧ st.rooms.length ≤ MAX_ROOMS := by
  obtain ⟨m1, g1, ha⟩ := attempt_success (GameMap.mkInit w h []) g hw hh
  obtain ⟨hw1, hh1, _, _⟩ := attempt_fields ha
  simp only [GameMap.mkInit] at hw1 hh1
  obtain ⟨r1, hr1⟩ := attempt_empty ha rfl
  obtain ⟨st, g', haux⟩ := generateAux_success 29 m1 g1 (by omega) (by omega)
  obtain ⟨_, _, _, t, hrt, hlt⟩ := generateAux_fields 29 m1 g1 st g' haux
  refine ⟨st, g', ?_, ?_, ?_⟩
  · show GameMap.generateAux (29 + 1) (GameMap.mkInit w h []) g = some (st, g')
    simp only [GameMap.generateAux]
    rw [ha]
    exact haux
  · rw [hrt, hr1]
    simp
  · rw [hrt, hr1]
    simp only [List.length_append, List.length_cons, List.length_nil, MAX_ROOMS]
    omega

/-- C4 witness: the demo 40×30 construction succeeds with a room count
between 1 and 30. -/
theorem generate_map_bounded_witness :
    1 ≤ demoSt.rooms.length ∧ demoSt.rooms.length ≤ MAX_ROOMS := by
  obtain ⟨st, g', heq, hl1, hl2⟩ := generate_map_bounded demoRng 40 30 (by decide) (by decide)
  have hs : demoRun.isSome = true := by decide
  have h2 : some (demoRun.get hs) = some (st, g') :=
    (Option.some_get hs).trans heq
  have h3 : demoRun.get hs = (st, g') := Option.some.inj h2
  have h4 : demoSt = st := congrArg Prod.fst h3
  rw [h4]
  exact ⟨hl1, hl2⟩

/-- C5: with the class-level room list threaded from the first construction
into the second (the Python class attribute is shared and never rebound), the
second construction starts from the first map's non-empty room list, tests
its candidates against it, and only appends: the shared list after both
constructions extends the first map's list, which is what the first map's
rooms attribute also denotes afterwards. -/
theorem class_level_rooms_shared (g : Rng) (w1 h1 w2 h2 : Int)
    (r1 r2 : List Rect) (h : GameMap.makeTwo g w1 h1 w2 h2 = some (r1, r2)) :
    r1 ≠ [] ∧ ∃ t, r2 = r1 ++ t := by
  unfold GameMap.makeTwo at h
  rcases hm1 : GameMap.make g w1 h1 [] with _ | ⟨st1, g1⟩ <;> rw [hm1] at h
  · exact Option.noConfusion h
  rcases hm2 : GameMap.make g1 w2 h2 st1.rooms with _ | ⟨st2, g2⟩ <;> simp only [hm2] at h
  · exact Option.noConfusion h
  rw [Option.some.injEq, Prod.mk.injEq] at h
  obtain ⟨hr1, hr2⟩ := h
  subst hr1
  subst hr2
  refine ⟨make_nil_rooms_nonempty hm1, ?_⟩
  obtain ⟨_, _, _, t, hrt, _⟩ :=
    generateAux_fields MAX_ROOMS (GameMap.mkInit w2 h2 st1.rooms) g1 st2 g2 hm2
  exact ⟨t, hrt⟩

/-- C5 witness: two concrete successive 40×30 constructions sharing the
class-level list. -/
theorem class_level_rooms_shared_witness :
    0 < (demoTwo.get (by decide)).1.length ∧
    ((demoTwo.get (by decide)).2.take (demoTwo.get (by decide)).1.length =
      (demoTwo.get (by decide)).1) := by
  have h := class_level_rooms_shared demoRng 40 30 40 30
    (demoTwo.get (by decide)).1 (demoTwo.get (by decide)).2
    ((Option.some_get (by decide)).symm)
  obtain ⟨hne, t, ht⟩ := h
  refine ⟨List.length_pos.mpr hne, ?_⟩
  rw [ht]
  exact List.take_left _ _

/-- C10: idx(x, y) = y*width + x is injective over the in-bounds range, every
constructed map's tile_content has exactly width*height slots, and idx maps
every in-bounds coordinate into those slots. -/
theorem idx_injective_spec (m : GameMap) (x1 y1 x2 y2 : Int)
    (h1 : m.in_bounds x1 y1 = true) (h2 : m.in_bounds x2 y2 = true) :
    (m.idx x1 y1 = m.idx x2 y2 → x1 = x2 ∧ y1 = y2) ∧
    (∀ g rooms0 st g', GameMap.make g m.width m.height rooms0 = some (st, g') →
      st.tile_content.length = (m.width * m.height).toNat) ∧
    0 ≤ m.idx x1 y1 ∧ (m.idx x1 y1).toNat < (m.width * m.height).toNat := by
  obtain ⟨hx1, hxw1, hy1, hyh1⟩ : 0 ≤ x1 ∧ x1 < m.width ∧ 0 ≤ y1 ∧ y1 < m.height := by
    simpa [GameMap.in_bounds] using h1
  obtain ⟨hx2, hxw2, hy2, hyh2⟩ : 0 ≤ x2 ∧ x2 < m.width ∧ 0 ≤ y2 ∧ y2 < m.height := by
    simpa [GameMap.in_bounds] using h2
  refine ⟨?_, ?_, ?_, ?_⟩
  · intro heq
    unfold GameMap.idx at heq
    have hy : y1 = y2 := by
      by_contra hne
      rcases lt_or_gt_of_ne hne with hlt | hgt
      · have hstep : (y1 + 1) * m.width ≤ y2 * m.width :=
          mul_le_mul_of_nonneg_right (by omega) (by omega)
        have h4 : y1 * m.width + m.width = (y1 + 1) * m.width := by ring
        omega
      · have hstep : (y2 + 1) * m.width ≤ y1 * m.width :=
          mul_le_mul_of_nonneg_right (by omega) (by omega)
        have h4 : y2 * m.width + m.width = (y2 + 1) * m.width := by ring
        omega
    subst hy
    exact ⟨by omega, rfl⟩
  · intro g rooms0 st g' hgen
    obtain ⟨_, _, htc, _⟩ :=
      generateAux_fields MAX_ROOMS (GameMap.mkInit m.width m.height rooms0) g st g' hgen
    rw [htc]
    simp [GameMap.mkInit, initTileContent]
  · unfold GameMap.idx
    have h0 : 0 ≤ y1 * m.width := mul_nonneg hy1 (by omega)
    omega
  · unfold GameMap.idx
    have hle : y1 * m.width ≤ (m.height - 1) * m.width :=
      mul_le_mul_of_nonneg_right (by omega) (by omega)
    have h4 : (m.height - 1) * m.width = m.height * m.width - m.width := by ring
    have h5 : m.height * m.width = m.width * m.height := by ring
    have h0 : 0 ≤ y1 * m.width := mul_nonneg hy1 (by omega)
    omega

/-- C10 witness: concrete in-bounds coordinates of the demo map. -/
theorem idx_injective_spec_witness :
    0 ≤ demoSt.idx 5 6 ∧ (demoSt.idx 5 6).toNat < (demoSt.width * demoSt.height).toNat := by
  have h := idx_injective_spec demoSt 5 6 7 8 (by decide) (by decide)
  exact ⟨h.2.2.1, h.2.2.2⟩

/-! The deep-copy spawn claim. -/

theorem copyCaps_spec :
    ∀ (caps : List Nat) (w : World) (p : Nat) (w2 : World) (nids : List Nat),
      World.copyCaps w caps p = some (w2, nids) →
      w2.entities = w.entities ∧
      w2.nextId = w.nextId + caps.length ∧
      (∀ i, i < w.nextId → w2.capsStore i = w.capsStore i) ∧
      (∀ n ∈ nids, w.nextId ≤ n ∧ n < w2.nextId) := by
  intro caps
  induction caps with
  | nil =>
    intro w p w2 nids h
    simp only [World.copyCaps, Option.some.injEq, Prod.mk.injEq] at h
    obtain ⟨rfl, rfl⟩ := h
    exact ⟨rfl, by simp, fun i _ => rfl, by simp⟩
  | cons cid rest ih =>
    intro w p w2 nids h
    simp only [World.copyCaps] at h
    rcases hc : w.capsStore cid with _ | c <;> rw [hc] at h
    · exact Option.noConfusion h
    rcases hcc : World.copyCaps (w.allocCap { c with parent := some p }).1 rest p
        with _ | ⟨w3, nids3⟩ <;> simp only [hcc] at h
    · exact Option.noConfusion h
    rw [Option.some.injEq, Prod.mk.injEq] at h
    obtain ⟨rfl, rfl⟩ := h
    obtain ⟨he, hn, hpres, hrange⟩ := ih _ p w3 nids3 hcc
    have hnext1 : (w.allocCap { c with parent := some p }).1.nextId = w.nextId + 1 := rfl
    refine ⟨he, ?_, ?_, ?_⟩
    · rw [List.length_cons]
      omega
    · intro i hi
      rw [hpres i (by omega)]
      show (if i = w.nextId then some _ else w.capsStore i) = w.capsStore i
      rw [if_neg (by omega)]
    · intro n hnmem
      rcases List.mem_cons.mp hnmem with rfl | hmem
      · have hid : (w.allocCap { c with parent := some p }).2 = w.nextId := rfl
        rw [hid]
        omega
      · obtain ⟨ha1, ha2⟩ := hrange n hmem
        omega

/-- C7: spawn produces a clone at the requested coordinates, parented to the
map, sharing no heap entry with the template: the template entry and its
capability entries survive the spawn unchanged, and mutating the clone's
position or any of the clone's capabilities leaves the template entity and
every one of its capabilities exactly as before. -/
theorem spawn_deep_copy (w : World) (tid : Nat) (gm : Option Nat) (x y : Int)
    (e : EntityEntry) (hwf : w.WF) (hte : w.entities tid = some e)
    (w' : World) (cid : Nat) (hs : w.spawn tid gm x y = some (w', cid)) :
    (∃ ecl, w'.entities cid = some ecl ∧ ecl.x = x ∧ ecl.y = y ∧ ecl.parent = gm ∧
      ecl.char = e.char ∧ ecl.name = e.name ∧
      ecl.blocks_movement = e.blocks_movement) ∧
    w'.entities tid = some e ∧
    cid ≠ tid ∧
    (∀ c ∈ e.caps, w'.capsStore c = w.capsStore c) ∧
    (∀ a b, (w'.setEntityPos cid a b).entities tid = some e ∧
      ∀ c ∈ e.caps, (w'.setEntityPos cid a b).capsStore c = w.capsStore c) ∧
    (∀ ecl, w'.entities cid = some ecl → ∀ ccl ∈ ecl.caps, ∀ v,
      (w'.setCapHp ccl v).entities tid = some e ∧
      ∀ c ∈ e.caps, (w'.setCapHp ccl v).capsStore c = w.capsStore c) := by
  have htid : tid < w.nextId := by
    by_contra hge
    have hnone := (hwf.1 tid (by omega)).1
    rw [hnone] at hte
    exact Option.noConfusion hte
  have hcapslt : ∀ c ∈ e.caps, c < w.nextId := hwf.2 tid e hte
  simp only [World.spawn, hte] at hs
  rcases hcc : World.copyCaps { w with nextId := w.nextId + 1 } e.caps w.nextId
      with _ | ⟨w2, newCaps⟩ <;> simp only [hcc] at hs
  · exact Option.noConfusion hs
  rw [Option.some.injEq, Prod.mk.injEq] at hs
  obtain ⟨hw', hcid⟩ := hs
  subst hcid
  obtain ⟨he2, hn2, hpres2, hrange2⟩ := copyCaps_spec e.caps _ w.nextId w2 newCaps hcc
  have hent : ∀ i, w'.entities i =
      if i = w.nextId then
        some { e with x := x, y := y, parent := gm, caps := newCaps }
      else w2.entities i := by
    intro i
    rw [← hw']
  have hcaps' : w'.capsStore = w2.capsStore := by rw [← hw']
  have hentsw2 : w2.entities = w.entities := he2
  have hclone : w'.entities w.nextId =
      some { e with x := x, y := y, parent := gm, caps := newCaps } := by
    rw [hent]
    simp
  have htempl : w'.entities tid = some e := by
    rw [hent, if_neg (by omega), hentsw2]
    exact hte
  have hcapspres : ∀ c ∈ e.caps, w'.capsStore c = w.capsStore c := by
    intro c hcmem
    rw [hcaps']
    have := hpres2 c (by have := hcapslt c hcmem; simpa using by omega)
    simpa using this
  refine ⟨⟨_, hclone, rfl, rfl, rfl, rfl, rfl, rfl⟩, htempl, by omega, hcapspres, ?_, ?_⟩
  · intro a b
    constructor
    · show (if tid = w.nextId then _ else w'.entities tid) = some e
      rw [if_neg (by omega)]
      exact htempl
    · intro c hcmem
      exact hcapspres c hcmem
  · intro ecl hecl ccl hcclmem v
    have heclv : ecl = { e with x := x, y := y, parent := gm, caps := newCaps } := by
      rw [hclone] at hecl
      exact (Option.some.inj hecl).symm
    have hcclrange : w.nextId + 1 ≤ ccl := by
      have hmem2 : ccl ∈ newCaps := by
        rw [heclv] at hcclmem
        exact hcclmem
      have := (hrange2 ccl hmem2).1
      simpa using this
    constructor
    · show w'.entities tid = some e
      exact htempl
    · intro c hcmem
      have hne : c ≠ ccl := by
        have := hcapslt c hcmem
        omega
      show (if c = ccl then _ else w'.capsStore c) = w.capsStore c
      rw [if_neg hne]
      exact hcapspres c hcmem

/-- C7 witness: a concrete two-object heap; the spawn clone's position and
capability mutations leave the template entry and its capability intact. -/
theorem spawn_deep_copy_witness :
    (demoW2.setEntityPos demoCid 50 51).entities 0 = some demoTemplate ∧
    (demoW2.setCapHp 3 99).capsStore 1 = demoWorld.capsStore 1 := by
  have hwf : demoWorld.WF := by
    have hn : demoWorld.nextId = 2 := rfl
    constructor
    · intro i hi
      rw [hn] at hi
      have h0 : i ≠ 0 := by omega
      have h1 : i ≠ 1 := by omega
      exact ⟨by simp [demoWorld, h0], by simp [demoWorld, h1]⟩
    · intro i e he c hc
      rw [hn]
      by_cases h0 : i = 0
      · subst h0
        have he2 : some demoTemplate = some e := by simpa [demoWorld] using he
        have he3 : demoTemplate = e := Option.some.inj he2
        rw [← he3] at hc
        have hc1 : c = 1 := by simpa [demoTemplate] using hc
        omega
      · rw [show demoWorld.entities i = none from by simp [demoWorld, h0]] at he
        exact Option.noConfusion he
  have h := spawn_deep_copy demoWorld 0 (some 7) 50 60 demoTemplate hwf (by decide)
    demoW2 demoCid ((Option.some_get (by decide : demoSpawn.isSome = true)).symm)
  refine ⟨(h.2.2.2.2.1 50 51).1, ?_⟩
  have hecl := h.2.2.2.2.2
  have hc3 : demoCid = 2 := by decide
  have hentry : demoW2.entities demoCid =
      some { x := 50, y := 60, char := 'o', name := "orc", blocks_movement := true,
             parent := some 7, caps := [3] } := by decide
  have := hecl _ hentry 3 (by decide) 99
  exact this.2 1 (by decide)

end PyRrouge
